import Mathlib

/-!
Shallow embedding of `src/gui/plugins/timeline_view.py` (the GRR timeline
viewer plugin), restricted to its algorithmic core: the windowed, cached
event-table reader `EventTable.BuildTable`, the event-message dispatcher
`EventMessageRenderer`, and the event-detail scan `EventSubjectView.GetEvent`.

Modelling conventions:
* An AFF4 event child is the `Event` structure below (sequence id, timestamp,
  subject, type tag), covering exactly the attributes the embedded code reads.
* The backing store is modelled by the list `es` of events that
  `aff4.FACTORY.Open(container).Query(query)` would yield, in store order;
  a (partially consumed) event iterator is the list of its remaining events.
* `utils.TimeBasedCache` is modelled as an association list from string keys
  to saved iterators; `Get` is `Cache.get?` (a miss is `none`, modelling the
  raised `KeyError`), `ExpireObject` is `Cache.expire`, `Put` is `Cache.put`.
  The TTL clock is not modelled: no claim concerns expiry timing.
* Python `"%d" % n` formatting of the nonnegative row index is modelled by
  `pyFormatNat`, a decimal-numeral printer.
-/

/-- An event child yielded by iterating an AFF4 timeline container: the
attributes read by `timeline_view.py` (`child.id`, `child.timestamp`,
`child.subject`, `child.event.type`). -/
structure Event where
  id : Int
  timestamp : Int
  subject : String
  type : String
deriving DecidableEq

/-- The `utils.TimeBasedCache` content: an association list from string cache
keys to saved (partially consumed) event iterators, newest entry first. -/
abbrev Cache := List (String × List Event)

/-- Models `TimeBasedCache.Get`: `none` models the `KeyError` raised on a
missing key. Finds the newest entry for the key. -/
def Cache.get? : Cache → String → Option (List Event)
  | [], _ => none
  | (k, v) :: rest, key => if k = key then some v else Cache.get? rest key

/-- Models `TimeBasedCache.ExpireObject`: removes every entry stored under the
given key. -/
def Cache.expire (c : Cache) (key : String) : Cache :=
  c.filter (fun p => p.1 != key)

/-- Models `TimeBasedCache.Put`: stores the iterator under the key (the new
entry shadows any older one for `Cache.get?`). -/
def Cache.put (c : Cache) (key : String) (v : List Event) : Cache :=
  (key, v) :: c

/-- Little-endian decimal digits of `n`, with explicit fuel so the definition
is structurally recursive (and hence kernel-computable); `decDigits n n` is
the digit list of `n`, empty exactly for `n = 0`. -/
def decDigits : Nat → Nat → List Nat
  | 0, _ => []
  | fuel + 1, n => if n = 0 then [] else n % 10 :: decDigits fuel (n / 10)

/-- Models Python `"%d" % n` for the nonnegative ints used as row offsets:
the decimal numeral of `n`. -/
def pyFormatNat (n : Nat) : String :=
  if n = 0 then "0" else ((decDigits n n).reverse.map Nat.digitChar).asString

/-- Numeric value of a decimal digit character (only used in proofs, as the
inverse of `Nat.digitChar` on digits). -/
def charVal (c : Char) : Nat := c.toNat - 48

/-- Decimal-numeral reader, a left inverse of `pyFormatNat` (proof device for
key injectivity). -/
def unFormatNat (s : String) : Nat :=
  Nat.ofDigits 10 ((s.data.map charVal).reverse)

/-- The cache key built by `EventTable.BuildTable`:
`utils.SmartUnicode(container) + ":" + query + ":%d"` applied to a row
offset. (Percent escapes inside `container`/`query` themselves are not
modelled; every claim fixes one container/query pair, for which the key is a
fixed prefix followed by the formatted row offset.) -/
def cacheKey (container query : String) (row : Nat) : String :=
  container ++ ":" ++ query ++ ":" ++ pyFormatNat row

/-- Result of one `EventTable.BuildTable` call: the rows that were added to
the table (row index paired with the event rendered into that row, in the
order they were added), the value assigned to `self.size` (`none` when the
assignment was not reached), and the cache state after the call. -/
structure BuildResult where
  rows : List (Nat × Event)
  size : Option Nat
  cache : Cache
deriving DecidableEq

/-- `BuildTable` signals that more rows exist exactly by assigning
`self.size = act_row + 1` before returning early; `hasMore` is that signal. -/
def BuildResult.hasMore (r : BuildResult) : Bool := r.size.isSome

/-- The `for child in events` loop of `EventTable.BuildTable`: skip children
while `act_row < start_row`; otherwise add the child's row and, once
`act_row` (after the increment) reaches `end_row`, set `self.size`, save the
not-yet-consumed iterator under the key for the current `act_row`, and
return. Falling off the loop leaves `size` unset and the cache untouched. -/
def buildLoop (key : Nat → String) (start_row end_row : Nat) :
    List Event → Nat → Cache → BuildResult
  | [], _, c => ⟨[], none, c⟩
  | child :: rest, act_row, c =>
    if act_row < start_row then
      buildLoop key start_row end_row rest (act_row + 1) c
    else
      if act_row + 1 ≥ end_row then
        ⟨[(act_row, child)], some (act_row + 1 + 1), c.put (key (act_row + 1)) rest⟩
      else
        let r := buildLoop key start_row end_row rest (act_row + 1) c
        ⟨(act_row, child) :: r.rows, r.size, r.cache⟩

/-- `EventTable.BuildTable(start_row, end_row)` for a fixed container and
query whose fresh backing-store query yields `es`: try the cache at the key
for `start_row` (on a hit, expire that entry and resume at `act_row =
start_row`); on a `KeyError`, issue a fresh query and start at `act_row = 0`;
then run the collection loop. -/
def buildTable (cache : Cache) (container query : String) (es : List Event)
    (start_row end_row : Nat) : BuildResult :=
  match cache.get? (cacheKey container query start_row) with
  | some events =>
    buildLoop (cacheKey container query) start_row end_row events start_row
      (cache.expire (cacheKey container query start_row))
  | none => buildLoop (cacheKey container query) start_row end_row es 0 cache

/-- Reference enumeration: the rows obtained by pairing consecutive indices
starting at `a` with the given events (used to state what `buildLoop`
collects). -/
def rowsFrom (a : Nat) : List Event → List (Nat × Event)
  | [] => []
  | e :: rest => (a, e) :: rowsFrom (a + 1) rest

/-- The spec's sequential-scrolling scenario: starting from an empty cache,
call `BuildTable` for the windows `[0,10), [10,20), …` (here `k` windows),
threading the cache returned by each call into the next, and concatenate the
returned rows. -/
def fetchChain (container query : String) (es : List Event) :
    Nat → Cache × List (Nat × Event)
  | 0 => ([], [])
  | k + 1 =>
    let p := fetchChain container query es k
    let r := buildTable p.1 container query es (10 * k) (10 * (k + 1))
    (r.cache, p.2 ++ r.rows)

/-- The cache-coherence invariant of the spec for a fixed container, query
and stable backing event sequence `es`: every entry reachable under the key
for row offset `r` is an iterator holding exactly the events a fresh query
would yield from row `r` on. -/
def CacheOK (container query : String) (es : List Event) (c : Cache) : Prop :=
  ∀ r v, c.get? (cacheKey container query r) = some v → v = es.drop r

/-- The `event_template_dispatcher` dict of `EventMessageRenderer`: the fixed
mapping from known event types to their message templates (template markup
kept verbatim; `\x27` is the ASCII apostrophe). -/
def event_template_dispatcher (t : String) : Option String :=
  if t = "file.mtime" then
    some "<div><pre class=\x27inline\x27>M--</pre> File modified.</div>"
  else if t = "file.atime" then
    some "<div><pre class=\x27inline\x27>-A-</pre> File access.</div>"
  else if t = "file.ctime" then
    some "<div><pre class=\x27inline\x27>--C</pre> File metadata changed.</div>"
  else none

/-- `EventMessageRenderer.Layout`: pick the template for the event type via
`event_template_dispatcher.get(type, default_template)`; the default template
renders to `Event of type <raw-type>` (the escape filter is the identity on
the plain type tags, and surrounding template whitespace is not modelled). -/
def renderEventMessage (t : String) : String :=
  match event_template_dispatcher t with
  | some tmpl => tmpl
  | none => "Event of type " ++ t

/-- Whether `needle` matches at the head of `hay` (character lists). -/
def leadMatch : List Char → List Char → Bool
  | [], _ => true
  | _ :: _, [] => false
  | a :: as, b :: bs => a == b && leadMatch as bs

/-- Whether `needle` occurs contiguously anywhere in `hay`. -/
def occursIn (needle : List Char) : List Char → Bool
  | [] => leadMatch needle []
  | b :: bs => leadMatch needle (b :: bs) || occursIn needle bs

/-- Substring test on strings, via the character-list search. -/
def containsText (hay needle : String) : Bool :=
  occursIn needle.data hay.data

/-- ASCII whitespace predicate (the characters Python `int` strips). -/
def isSpaceChar (c : Char) : Bool :=
  c == ' ' || c == '\t' || c == '\n' || c == '\r'

/-- Strip leading and trailing ASCII whitespace from a character list. -/
def trimChars (l : List Char) : List Char :=
  ((l.dropWhile isSpaceChar).reverse.dropWhile isSpaceChar).reverse

/-- Accumulating decimal reader over characters; fails on the first
non-digit. -/
def natOfCharsAux : List Char → Nat → Option Nat
  | [], acc => some acc
  | c :: cs, acc =>
    if c.isDigit then natOfCharsAux cs (acc * 10 + charVal c) else none

/-- Reads a nonempty all-digit character list as a natural number. -/
def natOfChars? (l : List Char) : Option Nat :=
  if l.isEmpty then none else natOfCharsAux l 0

/-- Models Python `int(s)` on strings (base 10): strip surrounding
whitespace, allow one optional sign, then require a nonempty digit run;
`none` models the raised `ValueError`. -/
def pyInt? (s : String) : Option Int :=
  match trimChars s.data with
  | '-' :: rest => (natOfChars? rest).map (fun n => -(n : Int))
  | '+' :: rest => (natOfChars? rest).map (fun n => (n : Int))
  | l => (natOfChars? l).map (fun n => (n : Int))

/-- `EventSubjectView.GetEvent`: with no `event` parameter or the sentinel
`"null"` the guard fails and the method falls through (returns `none`);
otherwise `int(event_id)` is converted (a `ValueError` on a malformed id is
modelled by `Except.error` carrying the offending string) and the container's
children are scanned in order for the first child whose `id` equals it,
falling through to `none` when no child matches. -/
def getEvent (event_id : Option String) (children : List Event) :
    Except String (Option Event) :=
  match event_id with
  | none => Except.ok none
  | some s =>
    if s ≠ "null" then
      match pyInt? s with
      | some n => Except.ok (children.find? (fun child => child.id == n))
      | none => Except.error s
    else Except.ok none

/-- Concrete event used by the evaluation witnesses. -/
def sampleEvent (i : Nat) : Event :=
  ⟨(i : Int), 1300000000 + (i : Int), "aff4:/C.1/fs/os/file", "file.mtime"⟩

/-- A concrete container content with `n` events, for the witnesses. -/
def sampleEvents (n : Nat) : List Event :=
  (List.range n).map sampleEvent

/-! ### Cache lemmas -/

theorem Cache.get?_put_self (c : Cache) (k : String) (v : List Event) :
    (c.put k v).get? k = some v := by
  simp [Cache.put, Cache.get?]

theorem Cache.get?_put_ne (c : Cache) (k k' : String) (v : List Event) (h : k ≠ k') :
    (c.put k v).get? k' = c.get? k' := by
  simp [Cache.put, Cache.get?, h]

theorem Cache.expire_cons (p : String × List Event) (rest : Cache) (k : String) :
    Cache.expire (p :: rest) k =
      if p.1 = k then Cache.expire rest k else p :: Cache.expire rest k := by
  by_cases h : p.1 = k <;> simp [Cache.expire, List.filter_cons, h]

theorem Cache.get?_expire_self (c : Cache) (k : String) :
    (c.expire k).get? k = none := by
  induction c with
  | nil => rfl
  | cons p rest ih =>
    rw [Cache.expire_cons]
    by_cases h : p.1 = k
    · simp [h, ih]
    · simp [Cache.get?, h, ih]

theorem Cache.get?_expire_ne (c : Cache) (k k' : String) (h : k ≠ k') :
    (c.expire k).get? k' = c.get? k' := by
  induction c with
  | nil => rfl
  | cons p rest ih =>
    obtain ⟨pk, pv⟩ := p
    rw [Cache.expire_cons]
    by_cases hp : pk = k
    · rw [if_pos hp, ih]
      have hpk : pk ≠ k' := by rw [hp]; exact h
      simp [Cache.get?, hpk]
    · rw [if_neg hp]
      simp [Cache.get?, ih]

theorem Cache.get?_expire_some (c : Cache) (k k' : String) (v : List Event)
    (h : (c.expire k).get? k' = some v) : c.get? k' = some v := by
  by_cases hk : k = k'
  · subst hk
    rw [Cache.get?_expire_self] at h
    exact absurd h (by simp)
  · rwa [Cache.get?_expire_ne c k k' hk] at h

/-! ### Decimal formatting: `pyFormatNat` is injective -/

theorem decDigits_lt_ten : ∀ (fuel n d : Nat), d ∈ decDigits fuel n → d < 10 := by
  intro fuel
  induction fuel with
  | zero => intro n d hd; simp [decDigits] at hd
  | succ f ih =>
    intro n d hd
    by_cases hn : n = 0
    · simp [decDigits, hn] at hd
    · rw [decDigits, if_neg hn] at hd
      rcases List.mem_cons.mp hd with h | h
      · subst h; exact Nat.mod_lt _ (by norm_num)
      · exact ih _ _ h

theorem ofDigits_decDigits : ∀ (fuel n : Nat), n ≤ fuel →
    Nat.ofDigits 10 (decDigits fuel n) = n := by
  intro fuel
  induction fuel with
  | zero =>
    intro n h
    have : n = 0 := Nat.le_zero.mp h
    subst this
    simp [decDigits, Nat.ofDigits_nil]
  | succ f ih =>
    intro n h
    by_cases hn : n = 0
    · subst hn; simp [decDigits, Nat.ofDigits_nil]
    · rw [decDigits, if_neg hn, Nat.ofDigits_cons]
      have hdiv : n / 10 < n := Nat.div_lt_self (Nat.pos_of_ne_zero hn) (by norm_num)
      rw [ih (n / 10) (by omega)]
      omega

theorem charVal_digitChar (d : Nat) (h : d < 10) : charVal (Nat.digitChar d) = d := by
  interval_cases d <;> rfl

theorem unFormatNat_pyFormatNat (n : Nat) : unFormatNat (pyFormatNat n) = n := by
  by_cases hn : n = 0
  · subst hn; rfl
  · rw [pyFormatNat, if_neg hn, unFormatNat]
    have hdata : (((decDigits n n).reverse.map Nat.digitChar).asString).data
        = (decDigits n n).reverse.map Nat.digitChar := rfl
    rw [hdata, List.map_map]
    have hmap : (decDigits n n).reverse.map (charVal ∘ Nat.digitChar)
        = (decDigits n n).reverse.map id := by
      apply List.map_congr_left
      intro d hd
      exact charVal_digitChar d (decDigits_lt_ten n n d (List.mem_reverse.mp hd))
    rw [hmap, List.map_id, List.reverse_reverse]
    exact ofDigits_decDigits n n (Nat.le_refl n)

theorem pyFormatNat_injective : Function.Injective pyFormatNat := by
  intro m n h
  rw [← unFormatNat_pyFormatNat m, h, unFormatNat_pyFormatNat]

theorem cacheKey_inj (container query : String) {r r' : Nat}
    (h : cacheKey container query r = cacheKey container query r') : r = r' := by
  apply pyFormatNat_injective
  apply String.ext
  have hd := congrArg String.data h
  simp only [cacheKey, String.data_append, List.append_assoc] at hd
  exact List.append_cancel_left (List.append_cancel_left (List.append_cancel_left
    (List.append_cancel_left hd)))

/-! ### Characterization of the collection loop -/

theorem buildLoop_skip (key : Nat → String) (s e : Nat) :
    ∀ (es : List Event) (a : Nat) (c : Cache), a ≤ s →
      buildLoop key s e es a c = buildLoop key s e (es.drop (s - a)) s c := by
  intro es
  induction es with
  | nil => intro a c _; simp [buildLoop]
  | cons x rest ih =>
    intro a c h
    rcases Nat.lt_or_ge a s with hlt | hge
    · have h1 : buildLoop key s e (x :: rest) a c = buildLoop key s e rest (a + 1) c := by
        simp [buildLoop, hlt]
      rw [h1, ih (a + 1) c hlt]
      have h2 : s - a = (s - (a + 1)) + 1 := by omega
      rw [h2, List.drop_succ_cons]
    · have ha : a = s := Nat.le_antisymm h hge
      subst ha
      rw [Nat.sub_self, List.drop_zero]

theorem buildLoop_collect (key : Nat → String) (s e : Nat) :
    ∀ (es : List Event) (a : Nat) (c : Cache), s ≤ a → a < e →
      buildLoop key s e es a c =
        ⟨rowsFrom a (es.take (e - a)),
         if e - a ≤ es.length then some (e + 1) else none,
         if e - a ≤ es.length then c.put (key e) (es.drop (e - a)) else c⟩ := by
  intro es
  induction es with
  | nil =>
    intro a c hs he
    have h0 : ¬ e - a ≤ ([] : List Event).length := by
      simp only [List.length_nil]
      omega
    rw [if_neg h0, if_neg h0]
    simp [buildLoop, rowsFrom]
  | cons x rest ih =>
    intro a c hs he
    have hns : ¬ a < s := by omega
    by_cases hstop : a + 1 ≥ e
    · have hae : a + 1 = e := by omega
      have hL : buildLoop key s e (x :: rest) a c
          = ⟨[(a, x)], some (a + 1 + 1), c.put (key (a + 1)) rest⟩ := by
        simp [buildLoop, hns, hstop]
      rw [hL]
      have h1 : e - a = 1 := by omega
      rw [h1]
      have hlen : (1 : Nat) ≤ (x :: rest).length := by simp
      rw [if_pos hlen, if_pos hlen]
      simp [List.take_succ_cons, List.take_zero, List.drop_succ_cons, List.drop_zero,
        rowsFrom, hae]
    · have hlt : a + 1 < e := by omega
      have hL : buildLoop key s e (x :: rest) a c
          = ⟨(a, x) :: (buildLoop key s e rest (a + 1) c).rows,
             (buildLoop key s e rest (a + 1) c).size,
             (buildLoop key s e rest (a + 1) c).cache⟩ := by
        simp [buildLoop, hns, hstop]
      rw [hL, ih (a + 1) c (by omega) hlt]
      have h2 : e - a = (e - (a + 1)) + 1 := by omega
      rw [h2, List.take_succ_cons, List.drop_succ_cons]
      have h3 : (e - (a + 1)) + 1 ≤ (x :: rest).length ↔ e - (a + 1) ≤ rest.length := by
        simp only [List.length_cons]
        omega
    -- align the four if-conditions and finish componentwise
      by_cases h4 : e - (a + 1) ≤ rest.length
      · rw [if_pos h4, if_pos h4, if_pos (h3.mpr h4), if_pos (h3.mpr h4)]
        simp [rowsFrom]
      · rw [if_neg h4, if_neg h4, if_neg (fun hh => h4 (h3.mp hh)),
          if_neg (fun hh => h4 (h3.mp hh))]
        simp [rowsFrom]

theorem rowsFrom_append (l₁ l₂ : List Event) :
    ∀ a : Nat, rowsFrom a (l₁ ++ l₂) = rowsFrom a l₁ ++ rowsFrom (a + l₁.length) l₂ := by
  induction l₁ with
  | nil => intro a; simp [rowsFrom]
  | cons x rest ih =>
    intro a
    show (a, x) :: rowsFrom (a + 1) (rest ++ l₂)
        = ((a, x) :: rowsFrom (a + 1) rest) ++ rowsFrom (a + (x :: rest).length) l₂
    rw [List.cons_append, ih (a + 1)]
    have h1 : a + 1 + rest.length = a + (x :: rest).length := by
      simp only [List.length_cons]
      omega
    rw [h1]

theorem rowsFrom_length (l : List Event) : ∀ a : Nat, (rowsFrom a l).length = l.length := by
  induction l with
  | nil => intro a; rfl
  | cons x rest ih => intro a; simp [rowsFrom, ih]

theorem buildTable_miss_eq (c : Cache) (container query : String) (es : List Event)
    (s e : Nat) (h : s < e) (hm : c.get? (cacheKey container query s) = none) :
    buildTable c container query es s e =
      ⟨rowsFrom s ((es.drop s).take (e - s)),
       if e ≤ es.length then some (e + 1) else none,
       if e ≤ es.length then c.put (cacheKey container query e) (es.drop e) else c⟩ := by
  rw [show buildTable c container query es s e
      = buildLoop (cacheKey container query) s e es 0 c from by
    unfold buildTable
    rw [hm]]
  rw [buildLoop_skip (cacheKey container query) s e es 0 c (Nat.zero_le s)]
  rw [Nat.sub_zero]
  rw [buildLoop_collect (cacheKey container query) s e (es.drop s) s
    (c := c) (Nat.le_refl s) h]
  have hlen : (es.drop s).length = es.length - s := List.length_drop s es
  have hiff : e - s ≤ (es.drop s).length ↔ e ≤ es.length := by
    rw [hlen]; omega
  have hdd : (es.drop s).drop (e - s) = es.drop e := by
    rw [List.drop_drop]
    have : s + (e - s) = e := by omega
    rw [this]
  by_cases hc : e ≤ es.length
  · rw [if_pos (hiff.mpr hc), if_pos (hiff.mpr hc), if_pos hc, if_pos hc, hdd]
  · rw [if_neg (fun hh => hc (hiff.mp hh)), if_neg (fun hh => hc (hiff.mp hh)),
      if_neg hc, if_neg hc]

theorem buildTable_hit_eq (c : Cache) (container query : String) (es v : List Event)
    (s e : Nat) (h : s < e) (hh : c.get? (cacheKey container query s) = some v) :
    buildTable c container query es s e =
      ⟨rowsFrom s (v.take (e - s)),
       if e - s ≤ v.length then some (e + 1) else none,
       if e - s ≤ v.length then
         (c.expire (cacheKey container query s)).put (cacheKey container query e)
           (v.drop (e - s))
       else c.expire (cacheKey container query s)⟩ := by
  rw [show buildTable c container query es s e
      = buildLoop (cacheKey container query) s e v s
          (c.expire (cacheKey container query s)) from by
    unfold buildTable
    rw [hh]]
  exact buildLoop_collect (cacheKey container query) s e v s
    (c := c.expire (cacheKey container query s)) (Nat.le_refl s) h

/-- State of the sequential-window chain after `k ≥ 1` windows: the rows seen
so far are exactly the first `10 * k` events (indexed from 0), and the cache
holds exactly the resumption checkpoint at offset `10 * k` when the last
window was filled, and nothing otherwise. -/
theorem fetchChain_inv (container query : String) (es : List Event) :
    ∀ k : Nat, 1 ≤ k →
      fetchChain container query es k =
        (if 10 * k ≤ es.length then
          [(cacheKey container query (10 * k), es.drop (10 * k))]
         else [],
         rowsFrom 0 (es.take (10 * k))) := by
  intro k
  induction k with
  | zero => intro h; exact absurd h (by norm_num)
  | succ k ih =>
    intro _
    by_cases hk : k = 0
    · subst hk
      have e1 : fetchChain container query es 1
          = ((buildTable [] container query es 0 10).cache,
             [] ++ (buildTable [] container query es 0 10).rows) := rfl
      rw [e1, buildTable_miss_eq [] container query es 0 10 (by norm_num) rfl]
      rw [show (10 * (0 + 1) : Nat) = 10 from rfl]
      simp only [List.drop_zero, Nat.sub_zero, List.nil_append]
      by_cases hc : 10 ≤ es.length
      · rw [if_pos hc, if_pos hc]
        exact Prod.ext rfl rfl
      · rw [if_neg hc, if_neg hc]
    · have hk1 : 1 ≤ k := by omega
      have hfc := ih hk1
      have e0 : fetchChain container query es (k + 1)
          = ((buildTable (fetchChain container query es k).1 container query es
                (10 * k) (10 * (k + 1))).cache,
             (fetchChain container query es k).2
               ++ (buildTable (fetchChain container query es k).1 container query es
                  (10 * k) (10 * (k + 1))).rows) := rfl
      have hlt : 10 * k < 10 * (k + 1) := by omega
      by_cases hclen : 10 * k ≤ es.length
      · rw [if_pos hclen] at hfc
        have hfc1 : (fetchChain container query es k).1
            = [(cacheKey container query (10 * k), es.drop (10 * k))] := by rw [hfc]
        have hfc2 : (fetchChain container query es k).2
            = rowsFrom 0 (es.take (10 * k)) := by rw [hfc]
        rw [e0, hfc1, hfc2]
        have hhit : Cache.get? [(cacheKey container query (10 * k), es.drop (10 * k))]
            (cacheKey container query (10 * k)) = some (es.drop (10 * k)) := by
          simp [Cache.get?]
        rw [buildTable_hit_eq _ container query es (es.drop (10 * k))
          (10 * k) (10 * (k + 1)) hlt hhit]
        have hes : (10 * (k + 1)) - 10 * k = 10 := by omega
        have hvlen : (es.drop (10 * k)).length = es.length - 10 * k := List.length_drop ..
        have hexp : Cache.expire
            [(cacheKey container query (10 * k), es.drop (10 * k))]
            (cacheKey container query (10 * k)) = [] := by
          rw [Cache.expire_cons, if_pos rfl]
          rfl
        have htk : (es.take (10 * k)).length = 10 * k := by
          rw [List.length_take]
          exact Nat.min_eq_left hclen
        by_cases hfill : 10 * (k + 1) ≤ es.length
        · have hcond : (10 * (k + 1)) - 10 * k ≤ (es.drop (10 * k)).length := by
            rw [hvlen]; omega
          rw [if_pos hcond, if_pos hcond, if_pos hfill]
          apply Prod.ext
          · show Cache.put _ _ _ = _
            rw [hexp, hes]
            show [(cacheKey container query (10 * (k + 1)), (es.drop (10 * k)).drop 10)] = _
            rw [List.drop_drop]
            rw [show 10 * k + 10 = 10 * (k + 1) from by omega]
          · show rowsFrom 0 (es.take (10 * k)) ++ rowsFrom (10 * k) ((es.drop (10 * k)).take ((10 * (k + 1)) - 10 * k)) = _
            rw [hes, show (10 * (k + 1) : Nat) = 10 * k + 10 from by omega,
              List.take_add, rowsFrom_append, htk, Nat.zero_add]
        · have hcond : ¬ (10 * (k + 1)) - 10 * k ≤ (es.drop (10 * k)).length := by
            rw [hvlen]; omega
          rw [if_neg hcond, if_neg hcond, if_neg hfill]
          apply Prod.ext
          · show Cache.expire _ _ = _
            rw [hexp]
          · show rowsFrom 0 (es.take (10 * k)) ++ rowsFrom (10 * k) ((es.drop (10 * k)).take ((10 * (k + 1)) - 10 * k)) = _
            have hvshort : (es.drop (10 * k)).take ((10 * (k + 1)) - 10 * k)
                = es.drop (10 * k) := by
              apply List.take_of_length_le
              rw [hvlen]; omega
            have hjoin : rowsFrom 0 (es.take (10 * k)) ++ rowsFrom (10 * k) (es.drop (10 * k))
                = rowsFrom 0 es := by
              have hra := rowsFrom_append (es.take (10 * k)) (es.drop (10 * k)) 0
              rw [htk, Nat.zero_add, List.take_append_drop] at hra
              exact hra.symm
            rw [hvshort, hjoin,
              List.take_of_length_le (by omega : es.length ≤ 10 * (k + 1))]
      · rw [if_neg hclen] at hfc
        have hfc1 : (fetchChain container query es k).1 = [] := by rw [hfc]
        have hfc2 : (fetchChain container query es k).2
            = rowsFrom 0 (es.take (10 * k)) := by rw [hfc]
        rw [e0, hfc1, hfc2]
        rw [buildTable_miss_eq [] container query es (10 * k) (10 * (k + 1)) hlt rfl]
        have hnil : es.drop (10 * k) = [] := List.drop_eq_nil_of_le (by omega)
        have hnf : ¬ 10 * (k + 1) ≤ es.length := by omega
        rw [if_neg hnf, if_neg hnf, if_neg hnf]
        apply Prod.ext
        · rfl
        · show rowsFrom 0 (es.take (10 * k)) ++ rowsFrom (10 * k) ((es.drop (10 * k)).take (10 * (k + 1) - 10 * k)) = _
          rw [hnil, List.take_nil]
          rw [show rowsFrom (10 * k) ([] : List Event) = [] from rfl, List.append_nil]
          rw [List.take_of_length_le (by omega : es.length ≤ 10 * k),
            List.take_of_length_le (by omega : es.length ≤ 10 * (k + 1))]

/-! ### Claim theorems -/

/-- C1: for every container and query over a stable underlying event set,
calling the windowed reader (`EventTable.BuildTable`) sequentially for the
windows `[0,10), [10,20), …` (threading the cache) and concatenating the
returned rows yields the same ordered row sequence as a single call covering
`[0, N)` with `N = 10 * k`. -/
theorem buildTable_sequential_windows_concat (container query : String)
    (es : List Event) (k : Nat) (hk : 1 ≤ k) :
    (fetchChain container query es k).2
      = (buildTable [] container query es 0 (10 * k)).rows := by
  rw [fetchChain_inv container query es k hk]
  rw [buildTable_miss_eq [] container query es 0 (10 * k) (by omega) rfl]
  show rowsFrom 0 (es.take (10 * k)) = rowsFrom 0 ((es.drop 0).take (10 * k - 0))
  rw [List.drop_zero, Nat.sub_zero]

/-- Evaluation witness for C1: two chained windows over a 15-event container
equal the single `[0, 20)` call. -/
theorem buildTable_sequential_windows_concat_witness :
    1 ≤ 2
    ∧ (fetchChain "aff4:/C.1/timeline" "" (sampleEvents 15) 2).2
        = (buildTable [] "aff4:/C.1/timeline" "" (sampleEvents 15) 0 (10 * 2)).rows :=
  ⟨by decide,
   buildTable_sequential_windows_concat "aff4:/C.1/timeline" "" (sampleEvents 15) 2
     (by decide)⟩

/-- C2: the rows (and the has-more signal) returned by `BuildTable` are the
same on the cache-hit path (a saved iterator positioned at `start_row`) and
on the cache-miss path (fresh query, skip from 0); in particular clearing
the cache before a call never changes the returned rows. -/
theorem buildTable_cache_transparency (container query : String) (es : List Event)
    (c : Cache) (s e : Nat) (h : s < e)
    (hc : c.get? (cacheKey container query s) = none
        ∨ c.get? (cacheKey container query s) = some (es.drop s)) :
    (buildTable c container query es s e).rows
        = (buildTable [] container query es s e).rows
    ∧ (buildTable c container query es s e).hasMore
        = (buildTable [] container query es s e).hasMore := by
  rw [buildTable_miss_eq [] container query es s e h rfl]
  rcases hc with hm | hh
  · rw [buildTable_miss_eq c container query es s e h hm]
    exact ⟨rfl, rfl⟩
  · rw [buildTable_hit_eq c container query es (es.drop s) s e h hh]
    constructor
    · rfl
    · show ((if e - s ≤ (es.drop s).length then some (e + 1) else none) : Option Nat).isSome
          = ((if e ≤ es.length then some (e + 1) else none) : Option Nat).isSome
      have hiff : e - s ≤ (es.drop s).length ↔ e ≤ es.length := by
        rw [List.length_drop]; omega
      by_cases hce : e ≤ es.length
      · rw [if_pos hce, if_pos (hiff.mpr hce)]
      · rw [if_neg hce, if_neg (fun h2 => hce (hiff.mp h2))]

/-- Evaluation witness for C2: a warm cache entry at row 5 gives the same
rows and signal as the empty cache. -/
theorem buildTable_cache_transparency_witness :
    5 < 9
    ∧ Cache.get? [(cacheKey "aff4:/C.1/timeline" "subject()" 5, (sampleEvents 12).drop 5)]
        (cacheKey "aff4:/C.1/timeline" "subject()" 5) = some ((sampleEvents 12).drop 5)
    ∧ ((buildTable [(cacheKey "aff4:/C.1/timeline" "subject()" 5, (sampleEvents 12).drop 5)]
          "aff4:/C.1/timeline" "subject()" (sampleEvents 12) 5 9).rows
        = (buildTable [] "aff4:/C.1/timeline" "subject()" (sampleEvents 12) 5 9).rows
      ∧ (buildTable [(cacheKey "aff4:/C.1/timeline" "subject()" 5, (sampleEvents 12).drop 5)]
          "aff4:/C.1/timeline" "subject()" (sampleEvents 12) 5 9).hasMore
        = (buildTable [] "aff4:/C.1/timeline" "subject()" (sampleEvents 12) 5 9).hasMore) :=
  ⟨by decide, by decide,
   buildTable_cache_transparency "aff4:/C.1/timeline" "subject()" (sampleEvents 12)
     [(cacheKey "aff4:/C.1/timeline" "subject()" 5, (sampleEvents 12).drop 5)] 5 9
     (by decide) (Or.inr (by decide))⟩

/-- Counterexample to C3 as stated: with exactly 2 events and the window
`[0, 2)` the iterator is exhausted exactly at `end_row`, yet `BuildTable`
still signals more rows (`self.size = end_row + 1`) and still caches the
already-exhausted iterator under the key for offset 2. -/
theorem buildTable_exhausted_at_end_counterexample :
    (sampleEvents 2).length = 2
    ∧ (buildTable [] "aff4:/C.1/timeline" "" (sampleEvents 2) 0 2).hasMore = true
    ∧ (buildTable [] "aff4:/C.1/timeline" "" (sampleEvents 2) 0 2).cache
        = [(cacheKey "aff4:/C.1/timeline" "" 2, [])] := by
  decide

/-- C3 (amended): whenever the running row counter reaches `end_row` — that
is, whenever at least `end_row` events exist from the start of the filtered
sequence — `BuildTable` signals more rows and saves the not-yet-consumed
(possibly already exhausted) iterator under the cache key for offset
`end_row`; only when the iterator is exhausted strictly before `end_row`
does it signal no more rows and leave nothing new in the cache. The returned
row count is `min (end_row - start_row) (N - start_row)`; in particular with
exactly 15 events the window `[0,10)` signals more rows and the window
`[10,20)` signals no more with exactly 5 rows (see the witness). -/
theorem buildTable_hasMore_cache_amended (container query : String)
    (es : List Event) (c : Cache) (s e : Nat) (h : s < e)
    (hc : c.get? (cacheKey container query s) = none
        ∨ c.get? (cacheKey container query s) = some (es.drop s)) :
    (buildTable c container query es s e).hasMore = decide (e ≤ es.length)
    ∧ (buildTable c container query es s e).rows.length
        = min (e - s) (es.length - s)
    ∧ (e ≤ es.length →
        (buildTable c container query es s e).cache.get? (cacheKey container query e)
          = some (es.drop e))
    ∧ (es.length < e →
        (buildTable c container query es s e).cache = c
        ∨ (buildTable c container query es s e).cache
            = c.expire (cacheKey container query s)) := by
  rcases hc with hm | hh
  · rw [buildTable_miss_eq c container query es s e h hm]
    refine ⟨?_, ?_, ?_, ?_⟩
    · show ((if e ≤ es.length then some (e + 1) else none) : Option Nat).isSome
          = decide (e ≤ es.length)
      by_cases hce : e ≤ es.length
      · rw [if_pos hce]; simp [hce]
      · rw [if_neg hce]; simp [hce]
    · show (rowsFrom s ((es.drop s).take (e - s))).length = _
      rw [rowsFrom_length, List.length_take, List.length_drop]
    · intro hce
      show ((if e ≤ es.length then c.put (cacheKey container query e) (es.drop e)
            else c) : Cache).get? (cacheKey container query e) = some (es.drop e)
      rw [if_pos hce]
      exact Cache.get?_put_self c _ _
    · intro hce
      show ((if e ≤ es.length then c.put (cacheKey container query e) (es.drop e)
            else c) : Cache) = c ∨ _
      rw [if_neg (by omega)]
      exact Or.inl rfl
  · rw [buildTable_hit_eq c container query es (es.drop s) s e h hh]
    have hiff : e - s ≤ (es.drop s).length ↔ e ≤ es.length := by
      rw [List.length_drop]; omega
    refine ⟨?_, ?_, ?_, ?_⟩
    · show ((if e - s ≤ (es.drop s).length then some (e + 1) else none) : Option Nat).isSome
          = decide (e ≤ es.length)
      by_cases hce : e ≤ es.length
      · rw [if_pos (hiff.mpr hce)]; simp [hce]
      · rw [if_neg (fun h2 => hce (hiff.mp h2))]; simp [hce]
    · show (rowsFrom s ((es.drop s).take (e - s))).length = _
      rw [rowsFrom_length, List.length_take, List.length_drop]
    · intro hce
      show ((if e - s ≤ (es.drop s).length then
              (c.expire (cacheKey container query s)).put (cacheKey container query e)
                ((es.drop s).drop (e - s))
            else c.expire (cacheKey container query s)) : Cache).get?
          (cacheKey container query e) = some (es.drop e)
      rw [if_pos (hiff.mpr hce), Cache.get?_put_self, List.drop_drop,
        show s + (e - s) = e from by omega]
    · intro hce
      show ((if e - s ≤ (es.drop s).length then
              (c.expire (cacheKey container query s)).put (cacheKey container query e)
                ((es.drop s).drop (e - s))
            else c.expire (cacheKey container query s)) : Cache) = c ∨ _
      rw [if_neg (fun h2 => absurd (hiff.mp h2) (by omega))]
      exact Or.inr rfl

/-- Evaluation witness for C3 (amended), realising the spec's 15-event
scenario: the window `[0,10)` signals more rows; the window `[10,20)`,
resumed from the cache left by the first call, returns exactly 5 rows, and
the amended theorem applies to it with its hypotheses discharged. -/
theorem buildTable_hasMore_cache_amended_witness :
    (buildTable [] "aff4:/C.1/timeline" "" (sampleEvents 15) 0 10).hasMore = true
    ∧ (buildTable (buildTable [] "aff4:/C.1/timeline" "" (sampleEvents 15) 0 10).cache
        "aff4:/C.1/timeline" "" (sampleEvents 15) 10 20).rows.length = 5
    ∧ 10 < 20
    ∧ (buildTable (buildTable [] "aff4:/C.1/timeline" "" (sampleEvents 15) 0 10).cache
        "aff4:/C.1/timeline" "" (sampleEvents 15) 10 20).hasMore
        = decide (20 ≤ (sampleEvents 15).length) :=
  ⟨by decide, by decide, by decide,
   (buildTable_hasMore_cache_amended "aff4:/C.1/timeline" "" (sampleEvents 15)
      (buildTable [] "aff4:/C.1/timeline" "" (sampleEvents 15) 0 10).cache 10 20
      (by decide) (Or.inr (by decide))).1⟩

/-- A `Put` of the suffix at offset `e` under the key for `e` preserves the
cache-coherence invariant (key injectivity in the row offset is what makes
this sound). -/
theorem CacheOK.put (container query : String) (es : List Event) (c : Cache)
    (hc : CacheOK container query es c) (e : Nat) :
    CacheOK container query es (c.put (cacheKey container query e) (es.drop e)) := by
  intro r v hrv
  have hrv2 : (if cacheKey container query e = cacheKey container query r
      then some (es.drop e)
      else c.get? (cacheKey container query r)) = some v := hrv
  by_cases hke : cacheKey container query e = cacheKey container query r
  · rw [if_pos hke] at hrv2
    injection hrv2 with hv
    have her : e = r := cacheKey_inj container query hke
    subst her
    exact hv.symm
  · rw [if_neg hke] at hrv2
    exact hc r v hrv2

/-- Expiring any key preserves the cache-coherence invariant. -/
theorem CacheOK.expire (container query : String) (es : List Event) (c : Cache)
    (hc : CacheOK container query es c) (k : String) :
    CacheOK container query es (c.expire k) :=
  fun r v hrv => hc r v (Cache.get?_expire_some c k _ v hrv)

/-- C4: `BuildTable` preserves the cache-coherence invariant: if every cached
entry for this container and query is an iterator positioned exactly at the
row offset encoded in its key (it yields what a fresh query would from that
offset), the same holds after any window call — in particular the one `Put`
the call can perform stores the iterator under the key whose offset equals
the iterator's current position. -/
theorem buildTable_cacheOK_preservation (container query : String)
    (es : List Event) (c : Cache) (s e : Nat) (h : s < e)
    (hc : CacheOK container query es c) :
    CacheOK container query es (buildTable c container query es s e).cache := by
  cases hget : c.get? (cacheKey container query s) with
  | none =>
    rw [buildTable_miss_eq c container query es s e h hget]
    show CacheOK container query es
      (if e ≤ es.length then c.put (cacheKey container query e) (es.drop e) else c)
    by_cases hce : e ≤ es.length
    · rw [if_pos hce]
      exact CacheOK.put container query es c hc e
    · rw [if_neg hce]
      exact hc
  | some v =>
    have hv : v = es.drop s := hc s v hget
    subst hv
    rw [buildTable_hit_eq c container query es (es.drop s) s e h hget]
    show CacheOK container query es
      (if e - s ≤ (es.drop s).length then
        (c.expire (cacheKey container query s)).put (cacheKey container query e)
          ((es.drop s).drop (e - s))
       else c.expire (cacheKey container query s))
    by_cases hce : e - s ≤ (es.drop s).length
    · rw [if_pos hce, List.drop_drop, show s + (e - s) = e from by omega]
      exact CacheOK.put container query es _
        (CacheOK.expire container query es c hc _) e
    · rw [if_neg hce]
      exact CacheOK.expire container query es c hc _

/-- Evaluation witness for C4: starting from the empty (trivially coherent)
cache, the cache left by a concrete window call is coherent. -/
theorem buildTable_cacheOK_preservation_witness :
    0 < 2
    ∧ CacheOK "aff4:/C.1/timeline" "" (sampleEvents 3)
        (buildTable [] "aff4:/C.1/timeline" "" (sampleEvents 3) 0 2).cache :=
  ⟨by decide,
   buildTable_cacheOK_preservation "aff4:/C.1/timeline" "" (sampleEvents 3) [] 0 2
     (by decide) (fun r v hrv => Option.noConfusion hrv)⟩

/-- C5: a missing (or expired) cache entry is never surfaced as an error:
when the lookup at `(container, query, start_row)` fails, `BuildTable`
silently issues a fresh query, skips events from position 0 until the
running count reaches `start_row`, and returns the window's rows normally. -/
theorem buildTable_cache_miss_fallback (container query : String)
    (es : List Event) (c : Cache) (s e : Nat) (h : s < e)
    (hm : c.get? (cacheKey container query s) = none) :
    (buildTable c container query es s e).rows
        = rowsFrom s ((es.drop s).take (e - s))
    ∧ (buildTable c container query es s e).hasMore = decide (e ≤ es.length) := by
  rw [buildTable_miss_eq c container query es s e h hm]
  constructor
  · rfl
  · show ((if e ≤ es.length then some (e + 1) else none) : Option Nat).isSome
        = decide (e ≤ es.length)
    by_cases hce : e ≤ es.length
    · rw [if_pos hce]; simp [hce]
    · rw [if_neg hce]; simp [hce]

/-- Evaluation witness for C5: a cache holding only a foreign key misses, and
the call still returns exactly the window's rows. -/
theorem buildTable_cache_miss_fallback_witness :
    3 < 5
    ∧ Cache.get? [(cacheKey "aff4:/C.2/other" "" 3, [])]
        (cacheKey "aff4:/C.1/timeline" "" 3) = none
    ∧ ((buildTable [(cacheKey "aff4:/C.2/other" "" 3, [])]
          "aff4:/C.1/timeline" "" (sampleEvents 4) 3 5).rows
        = rowsFrom 3 (((sampleEvents 4).drop 3).take (5 - 3))
      ∧ (buildTable [(cacheKey "aff4:/C.2/other" "" 3, [])]
          "aff4:/C.1/timeline" "" (sampleEvents 4) 3 5).hasMore
        = decide (5 ≤ (sampleEvents 4).length)) :=
  ⟨by decide, by decide,
   buildTable_cache_miss_fallback "aff4:/C.1/timeline" "" (sampleEvents 4)
     [(cacheKey "aff4:/C.2/other" "" 3, [])] 3 5 (by decide) (by decide)⟩

/-- C6: a cached checkpoint is single-use: on every cache hit at
`(container, query, start_row)` the entry is removed right after retrieval,
so after the call the lookup at that key fails and a second call with the
same `start_row` (without an intervening window re-creating the entry) takes
the cache-miss path. -/
theorem buildTable_hit_single_use (container query : String) (es v : List Event)
    (c : Cache) (s e : Nat) (h : s < e)
    (hh : c.get? (cacheKey container query s) = some v) :
    (buildTable c container query es s e).cache.get? (cacheKey container query s)
      = none := by
  rw [buildTable_hit_eq c container query es v s e h hh]
  show ((if e - s ≤ v.length then
          (c.expire (cacheKey container query s)).put (cacheKey container query e)
            (v.drop (e - s))
        else c.expire (cacheKey container query s)) : Cache).get?
      (cacheKey container query s) = none
  have hne : cacheKey container query e ≠ cacheKey container query s := by
    intro heq
    have := cacheKey_inj container query heq
    omega
  by_cases hce : e - s ≤ v.length
  · rw [if_pos hce, Cache.get?_put_ne _ _ _ _ hne, Cache.get?_expire_self]
  · rw [if_neg hce, Cache.get?_expire_self]

/-- Evaluation witness for C6: a concrete hit at offset 2 leaves no entry at
offset 2 behind. -/
theorem buildTable_hit_single_use_witness :
    2 < 4
    ∧ Cache.get? [(cacheKey "aff4:/C.1/timeline" "" 2, (sampleEvents 6).drop 2)]
        (cacheKey "aff4:/C.1/timeline" "" 2) = some ((sampleEvents 6).drop 2)
    ∧ (buildTable [(cacheKey "aff4:/C.1/timeline" "" 2, (sampleEvents 6).drop 2)]
        "aff4:/C.1/timeline" "" (sampleEvents 6) 2 4).cache.get?
        (cacheKey "aff4:/C.1/timeline" "" 2) = none :=
  ⟨by decide, by decide,
   buildTable_hit_single_use "aff4:/C.1/timeline" "" (sampleEvents 6)
     ((sampleEvents 6).drop 2)
     [(cacheKey "aff4:/C.1/timeline" "" 2, (sampleEvents 6).drop 2)] 2 4
     (by decide) (by decide)⟩

/-- C7: the event-type-to-message rendering is a pure total function over
all type values: the modification type renders the fixed template whose
display text says the file was modified, the access type the access text,
the metadata-change type the metadata text, and every other type value
renders the explicit default `Event of type <raw-type>`. -/
theorem renderEventMessage_total_mapping :
    containsText (renderEventMessage "file.mtime") "File modified" = true
    ∧ containsText (renderEventMessage "file.atime") "File access" = true
    ∧ containsText (renderEventMessage "file.ctime") "File metadata changed" = true
    ∧ ∀ t : String, t ≠ "file.mtime" → t ≠ "file.atime" → t ≠ "file.ctime" →
        renderEventMessage t = "Event of type " ++ t := by
  refine ⟨by decide, by decide, by decide, ?_⟩
  intro t h1 h2 h3
  rw [renderEventMessage, event_template_dispatcher, if_neg h1, if_neg h2, if_neg h3]

/-- Evaluation witness for C7: an unrecognised type takes the default case. -/
theorem renderEventMessage_total_mapping_witness :
    ("fs.unknown" ≠ "file.mtime" ∧ "fs.unknown" ≠ "file.atime"
      ∧ "fs.unknown" ≠ "file.ctime")
    ∧ renderEventMessage "fs.unknown" = "Event of type " ++ "fs.unknown" :=
  ⟨⟨by decide, by decide, by decide⟩,
   renderEventMessage_total_mapping.2.2.2 "fs.unknown" (by decide) (by decide)
     (by decide)⟩

/-- C8: `EventSubjectView.GetEvent` reports a miss (returns nothing, without
raising) when the event id is absent, when it is the sentinel string
`"null"`, and when it is a well-formed integer that matches no event id in
the container's sequence. -/
theorem getEvent_miss_returns_none (children : List Event) :
    getEvent none children = Except.ok none
    ∧ getEvent (some "null") children = Except.ok none
    ∧ ∀ (s : String) (n : Int), pyInt? s = some n →
        (∀ ev ∈ children, ev.id ≠ n) →
        getEvent (some s) children = Except.ok none := by
  refine ⟨rfl, ?_, ?_⟩
  · show (if ("null" : String) ≠ "null" then
            match pyInt? "null" with
            | some m => Except.ok (children.find? (fun child => child.id == m))
            | none => Except.error "null"
          else Except.ok none) = Except.ok none
    rw [if_neg (by simp)]
  · intro s n hp hnone
    have hs : s ≠ "null" := by
      intro heq
      subst heq
      rw [show pyInt? "null" = none from by decide] at hp
      exact Option.noConfusion hp
    have h1 : getEvent (some s) children
        = Except.ok (children.find? (fun child => child.id == n)) := by
      show (if s ≠ "null" then
              match pyInt? s with
              | some m => Except.ok (children.find? (fun child => child.id == m))
              | none => Except.error s
            else Except.ok none) = _
      rw [if_pos hs, hp]
    have hfind : children.find? (fun child => child.id == n) = none := by
      rw [List.find?_eq_none]
      intro x hx
      simp only [beq_iff_eq]
      exact hnone x hx
    rw [h1, hfind]

/-- Evaluation witness for C8: the id 7 parses but matches no event of a
3-event container, and the lookup reports a miss. -/
theorem getEvent_miss_returns_none_witness :
    pyInt? "7" = some 7
    ∧ (∀ ev ∈ sampleEvents 3, ev.id ≠ 7)
    ∧ getEvent (some "7") (sampleEvents 3) = Except.ok none :=
  ⟨by decide, by decide,
   (getEvent_miss_returns_none (sampleEvents 3)).2.2 "7" 7 (by decide) (by decide)⟩

/-- C10 (implicit): for an event id that is present, is not the sentinel
`"null"`, and is not a valid integer literal, `EventSubjectView.GetEvent`
raises (the unguarded `int(event_id)` conversion fails) instead of reporting
a miss: in the embedding the call yields the error value carrying the
offending string rather than `ok none`. -/
theorem getEvent_malformed_id_raises (children : List Event) (s : String)
    (h1 : s ≠ "null") (h2 : pyInt? s = none) :
    getEvent (some s) children = Except.error s := by
  show (if s ≠ "null" then
          match pyInt? s with
          | some m => Except.ok (children.find? (fun child => child.id == m))
          | none => Except.error s
        else Except.ok none) = _
  rw [if_pos h1, h2]

/-- Evaluation witness for C10: the malformed id string aborts the lookup
with an error instead of a miss. -/
theorem getEvent_malformed_id_raises_witness :
    ("abc" ≠ "null" ∧ pyInt? "abc" = none)
    ∧ getEvent (some "abc") (sampleEvents 2) = Except.error "abc" :=
  ⟨⟨by decide, by decide⟩,
   getEvent_malformed_id_raises (sampleEvents 2) "abc" (by decide) (by decide)⟩
